import Mathlib

/-!
Verification development for the numng package manager (src/numng.py).

The definitions below are a shallow embedding of the pure parts of the
program: Python strings are modelled as Lean `String` (manipulated through
their `List Char` data to keep everything kernel-computable), Python `None`
as `Option`, Python dicts as association lists in insertion order, and
Python asserts as `Option`/failure results.  Loops that Python runs with
in-place list mutation are embedded as functional recursion that reproduces
the CPython iterator semantics exactly (including the cursor skip that
happens when the current element is removed during iteration).
-/

/-! ## Basic character-list utilities (kernel-computable replacements for
String library functions, mirroring the Python operations used by numng) -/

/-- Split a character list on a separator character.
Mirrors Python str.split(sep): an empty input yields one empty field. -/
def splitOnChar (c : Char) : List Char → List (List Char)
  | [] => [[]]
  | x :: xs =>
    let r := splitOnChar c xs
    if x = c then [] :: r
    else
      match r with
      | y :: ys => (x :: y) :: ys
      | [] => [[x]]

/-- Does the first list occur as a leading segment of the second?
Mirrors Python str.startswith. -/
def startsList : List Char → List Char → Bool
  | [], _ => true
  | _ :: _, [] => false
  | a :: as, b :: bs => a = b && startsList as bs

/-- Does the first list occur as a contiguous segment of the second?
Mirrors the Python substring test (the `in` operator on strings);
the empty needle is contained in everything. -/
def hasSubList (n : List Char) : List Char → Bool
  | [] => startsList n []
  | c :: t => startsList n (c :: t) || hasSubList n t

/-- Value of a run of decimal digit characters, as Python int() computes it. -/
def natOfDigitChars (ds : List Char) : Nat :=
  ds.foldl (fun n c => n * 10 + (c.toNat - 48)) 0

/-- Concatenate character lists with a separator character between fields. -/
def joinWithChar (c : Char) : List (List Char) → List Char
  | [] => []
  | [x] => x
  | x :: y :: ys => x ++ c :: joinWithChar c (y :: ys)

/-- Python substring membership on `String`s. -/
def pyInStr (needle hay : String) : Bool :=
  hasSubList needle.data hay.data

/-- Python str.startswith on `String`s: pyStartsWith s p is s.startswith(p). -/
def pyStartsWith (s p : String) : Bool :=
  startsList p.data s.data

/-- Split a string at the FIRST occurrence of a separator character,
mirroring Python str.split(sep, 1) for a one-character separator.
Returns none when the separator does not occur. -/
def splitOnceChar (c : Char) (s : List Char) : Option (List Char × List Char) :=
  match s with
  | [] => none
  | x :: xs =>
    if x = c then some ([], xs)
    else (splitOnceChar c xs).map (fun p => (x :: p.1, p.2))

/-- Split a string at the LAST occurrence of a separator character,
mirroring Python str.rsplit(sep, 1) for a one-character separator. -/
def rsplitOnceChar (c : Char) (s : List Char) : Option (List Char × List Char) :=
  match s with
  | [] => none
  | x :: xs =>
    match rsplitOnceChar c xs with
    | some p => some (x :: p.1, p.2)
    | none => if x = c then some ([], xs) else none

/-! ## Python path model

numng joins paths with os.path.join and normalizes with os.path.abspath.
The program only ever feeds absolute base paths into abspath, so abspath
is modelled as POSIX normpath on an absolute path (collapse duplicate
separators, drop "." components, resolve ".." components, never escape
the root).  os.path.join is modelled for the shapes numng uses: a base
(possibly empty) joined with relative components. -/

/-- os.path.join for two components (second component relative unless it
starts with a slash, in which case it replaces the accumulated path,
exactly as in CPython posixpath.join). -/
def pyJoin (a b : String) : String :=
  if startsList ['/'] b.data then b
  else if a.data = [] then b
  else if a.data.getLast? = some '/' then a ++ b
  else a ++ "/" ++ b

/-- os.path.join of a base with a list of further components. -/
def pyJoinAll (a : String) (parts : List String) : String :=
  parts.foldl pyJoin a

/-- POSIX os.path.normpath restricted to absolute paths: split on slashes,
drop empty and "." components, let ".." pop the previous component (and
vanish at the root), and reassemble with a single leading slash. -/
def pyNormPath (p : String) : String :=
  let comps := (splitOnChar '/' p.data).filter (fun c => !c.isEmpty && c != ['.'])
  let stack := comps.foldl
    (fun acc c => if c = ['.', '.'] then acc.dropLast else acc ++ [c]) []
  String.mk ('/' :: joinWithChar '/' stack)

/-- os.path.abspath as numng uses it: every path handed to abspath in the
program is built from an absolute base, so abspath is normpath. -/
def pyAbspath (p : String) : String :=
  pyNormPath p

/-- filesystem_safe from src/numng.py: replace every character outside
ASCII letters, digits and "-_. " with an underscore. -/
def filesystem_safe (text : String) : String :=
  String.mk (text.data.map
    (fun c => if c.isAlpha || c.isDigit || c = '-' || c = '_' || c = '.' || c = ' '
      then c else '_'))

/-! ## SemVer (src/numng.py lines 31-102) -/

/-- The parsed version-constraint record of class SemVer: an optional
operator string and optional major/minor/patch numbers. -/
structure SemVer where
  op : Option String
  major : Option Nat
  minor : Option Nat
  patch : Option Nat
deriving DecidableEq, Repr

/-- The four range-operator characters recognised in the first position. -/
def rangeOps : List Char := ['<', '>', '^', '~']

/-- SemVer.__init__ (lines 32-46): take the operator from a leading
range character; each dot-separated section contributes the number formed
by its digit characters (empty sections are dropped); a nonempty purely
alphabetic text is stored verbatim as the operator. -/
def SemVer.ofString (text : String) : SemVer :=
  let cs := text.data
  let op0 : Option String :=
    match cs with
    | [] => none
    | c :: _ => if hasSubList [c] rangeOps then some (String.mk [c]) else none
  let nums : List Nat :=
    ((splitOnChar '.' cs).map (fun sec => sec.filter Char.isDigit)).filterMap
      (fun ds => if ds.isEmpty then none else some (natOfDigitChars ds))
  let opF : Option String :=
    if !cs.isEmpty && cs.all Char.isAlpha then some text else op0
  { op := opF, major := nums.get? 0, minor := nums.get? 1, patch := nums.get? 2 }

/-- Comparison helper: Python `a < b` on two ints.  In the source every such
comparison is short-circuit-guarded by None checks, so the value chosen for
the unreachable None cases is irrelevant. -/
def optLt (a b : Option Nat) : Bool :=
  match a, b with
  | some x, some y => decide (x < y)
  | _, _ => false

/-- Python `(op or '') in "<>^~"` from line 51: a substring test, hence true
for an unset operator (empty string) and for a single range character. -/
def opInRange (op : Option String) : Bool :=
  hasSubList (op.getD "").data "<>^~".data

/-- SemVer.__eq__ (lines 48-74), the symmetric match test between two
constraints (the not-a-SemVer branch is outside the embedding). -/
def SemVer.eq (self other : SemVer) : Bool :=
  if !opInRange self.op || !opInRange other.op then
    self.op == other.op
  else if (self.major.isNone || other.major.isNone)
      || ((self.op == some ">" || other.op == some "<") && optLt self.major other.major)
      || ((other.op == some ">" || self.op == some "<") && optLt other.major self.major) then
    true
  else if self.major != other.major then
    false
  else if (self.minor.isNone || other.minor.isNone)
      || ((self.op == some ">" || self.op == some "^" || other.op == some "<")
            && optLt self.minor other.minor)
      || ((other.op == some ">" || other.op == some "^" || self.op == some "<")
            && optLt other.minor self.minor) then
    true
  else if self.minor != other.minor then
    false
  else
    (self.patch.isNone || other.patch.isNone
      || self.patch == other.patch
      || ((self.op == some ">" || self.op == some "^" || self.op == some "~"
            || other.op == some "<") && optLt self.patch other.patch)
      || ((other.op == some ">" || other.op == some "^" || other.op == some "~"
            || self.op == some "<") && optLt other.patch self.patch))

/-- SemVer.__gt__ (lines 76-91); the not-a-SemVer branch is outside the
embedding, so only the `other.major is None` half of line 77 remains. -/
def SemVer.gt (self other : SemVer) : Bool :=
  if other.major.isNone then true
  else if self.op == some "latest" then true
  else if other.op == some "latest" then false
  else if self.major.isNone || optLt self.major other.major then false
  else if optLt other.major self.major || other.minor.isNone then true
  else if self.minor.isNone || optLt self.minor other.minor then false
  else if optLt other.minor self.minor || other.patch.isNone then true
  else !(self.patch.isNone || optLt self.patch other.patch)

/-- The per-entry match test on line 99 of latest_matching_dict_entry:
a wanted constraint with operator "latest" matches unconditionally,
otherwise SemVer.__eq__ decides. -/
def matchesEntry (self cand : SemVer) : Bool :=
  self.op == some "latest" || SemVer.eq self cand

/-- SemVer.latest_matching_dict_entry (lines 96-102) over an
insertion-ordered association list: skip the "_" sentinel key, parse each
key, keep matching entries and track the greatest one under SemVer.__gt__
(strict improvement, so the first of several __gt__-equivalent keys is
kept unless a later one compares greater). -/
def SemVer.latest_matching_dict_entry {α : Type} (self : SemVer)
    (options : List (String × α)) : Option α :=
  (options.foldl
    (fun (big : Option (SemVer × α)) (kv : String × α) =>
      if kv.1 = "_" then big
      else
        let cand := SemVer.ofString kv.1
        if matchesEntry self cand then
          match big with
          | none => some (cand, kv.2)
          | some b => if SemVer.gt cand b.1 then some (cand, kv.2) else big
        else big)
    none).map (fun b => b.2)

/-! ## Claims C4 and C5: the version match and ordering relations -/

/-- Claim C4 (counterexample): "latest" does NOT act as a wildcard on the
candidate side.  SemVer("1.2.3") matched against a candidate "latest" is
false, SemVer("latest").__eq__(SemVer("1.2.3")) is false, and a dict whose
only key is "latest" yields no match for the wanted constraint "1.2.3". -/
theorem latest_candidate_no_match_cex :
    matchesEntry (SemVer.ofString "1.2.3") (SemVer.ofString "latest") = false
  ∧ SemVer.eq (SemVer.ofString "latest") (SemVer.ofString "1.2.3") = false
  ∧ (SemVer.ofString "1.2.3").latest_matching_dict_entry [("latest", 0)] = none := by
  refine ⟨by decide, by decide, rfl⟩

/-- Claim C4 (amended): "latest" is a wildcard only on the wanted side of
the match test of latest_matching_dict_entry (special-cased on line 99);
a candidate "latest" never matches a wanted constraint whose operator is
not itself "latest". -/
theorem latest_wanted_always_matches :
    (∀ c : SemVer, matchesEntry (SemVer.ofString "latest") c = true)
  ∧ (∀ c : SemVer, c.op ≠ some "latest" →
       matchesEntry c (SemVer.ofString "latest") = false) := by
  constructor
  · intro c
    unfold matchesEntry
    rw [show (SemVer.ofString "latest").op = some "latest" from rfl]
    simp
  · intro c hc
    have h1 : (c.op == some "latest") = false := beq_eq_false_iff_ne.mpr hc
    unfold matchesEntry
    rw [h1, Bool.false_or]
    unfold SemVer.eq
    rw [show opInRange (SemVer.ofString "latest").op = false from rfl]
    rw [show (SemVer.ofString "latest").op = some "latest" from rfl]
    simp [h1]

/-- Witness for latest_wanted_always_matches at concrete constraints. -/
theorem latest_wanted_always_matches_witness :
    matchesEntry (SemVer.ofString "latest") (SemVer.ofString "1.0.0") = true
  ∧ matchesEntry (SemVer.ofString "1.0.0") (SemVer.ofString "latest") = false :=
  ⟨latest_wanted_always_matches.1 _,
   latest_wanted_always_matches.2 _ (by decide)⟩

/-- Claim C5 (counterexample): a parsed "latest" constraint has unset major,
so __gt__'s first line makes EVERY constraint greater than it; here the
non-latest constraint 1.2.3 is greater than latest, refuting "no non-latest
constraint is greater than it". -/
theorem gt_over_parsed_latest_cex :
    SemVer.gt (SemVer.ofString "1.2.3") (SemVer.ofString "latest") = true
  ∧ (SemVer.ofString "latest").op = some "latest"
  ∧ (SemVer.ofString "1.2.3").op ≠ some "latest" := by decide

/-- Claim C5 (amended): __gt__ compares major, then minor, then patch with a
patch tie counting as greater; a non-latest constraint with unset major is
never greater than a constraint with set major; operator "latest" on the
left dominates; and unset major on the RIGHT (in particular any parsed
"latest") makes __gt__ true for every left argument. -/
theorem semver_gt_characterization :
    (∀ a b : SemVer, ∀ ma mi pa mb nb pb : Nat,
       a.op ≠ some "latest" → b.op ≠ some "latest" →
       a.major = some ma → a.minor = some mi → a.patch = some pa →
       b.major = some mb → b.minor = some nb → b.patch = some pb →
       (SemVer.gt a b = true ↔
         (mb < ma ∨ (ma = mb ∧ (nb < mi ∨ (mi = nb ∧ pb ≤ pa))))))
  ∧ (∀ a b : SemVer, a.major = none → a.op ≠ some "latest" → b.major.isSome →
       SemVer.gt a b = false)
  ∧ (∀ a b : SemVer, a.op = some "latest" → SemVer.gt a b = true)
  ∧ (∀ a b : SemVer, b.major = none → SemVer.gt a b = true) := by
  refine ⟨?_, ?_, ?_, ?_⟩
  · intro a b ma mi pa mb nb pb ha hb hma hmi hpa hmb hnb hpb
    have ha' : (a.op == some "latest") = false := beq_eq_false_iff_ne.mpr ha
    have hb' : (b.op == some "latest") = false := beq_eq_false_iff_ne.mpr hb
    simp only [SemVer.gt, hma, hmi, hpa, hmb, hnb, hpb, ha', hb', optLt,
      Option.isNone_some, Bool.false_eq_true, if_false, Bool.or_false,
      Bool.false_or, decide_eq_true_eq]
    split_ifs <;> simp_all <;> omega
  · intro a b hma ha hb
    have ha' : (a.op == some "latest") = false := beq_eq_false_iff_ne.mpr ha
    rcases Option.isSome_iff_exists.mp hb with ⟨mb, hmb⟩
    simp [SemVer.gt, hma, hmb, ha', optLt]
  · intro a b ha
    by_cases h : b.major = none
    · simp [SemVer.gt, h]
    · rcases Option.ne_none_iff_exists'.mp h with ⟨mb, hmb⟩
      simp [SemVer.gt, hmb, ha]
  · intro a b hb
    simp [SemVer.gt, hb]

/-- Witness for semver_gt_characterization: 2.3.4 is greater than 2.3.3. -/
theorem semver_gt_characterization_witness :
    SemVer.gt (SemVer.ofString "2.3.4") (SemVer.ofString "2.3.3") = true :=
  (semver_gt_characterization.1 _ _ 2 3 4 2 3 3 (by decide) (by decide)
    rfl rfl rfl rfl rfl rfl).mpr (by omega)

/-! ## JSON values, Python dicts, and the Package record -/

/-- JSON/NUON values as numng consumes them (after json.load or the external
NUON-to-JSON conversion). -/
inductive Json where
  | null
  | bool (b : Bool)
  | num (n : Int)
  | str (s : String)
  | arr (elems : List Json)
  | obj (fields : List (String × Json))

/-- Is the value a string?  (Python isinstance(x, str).) -/
def Json.isStr : Json → Bool
  | .str _ => true
  | _ => false

/-- Python dict lookup on an insertion-ordered association list
(first match; real dicts have unique keys). -/
def pyLookup (d : List (String × Json)) (k : String) : Option Json :=
  match d with
  | [] => none
  | kv :: rest => if kv.1 = k then some kv.2 else pyLookup rest k

/-- Python dict merge as written on line 131: the result of
pyDictUpdate a b has the semantics of the literal with a spread first and
b spread second, so b wins on common keys (a keeps its insertion
positions, keys only in b follow). -/
def pyDictUpdate (a b : List (String × Json)) : List (String × Json) :=
  a.map (fun kv => (kv.1, (pyLookup b kv.1).getD kv.2))
  ++ b.filter (fun kv2 => (pyLookup a kv2.1).isNone)

/-- The Package dataclass (lines 105-115).  depends and registries nest
Packages, so the record is a (nested) inductive. -/
inductive Package where
  | mk (name : String) (depends : Option (List Package))
       (source_type : Option String) (source_uri : Option String)
       (source_git_ref : Option String) (source_path_offset : Option String)
       (registries : Option (List Package)) (package_format : Option String)
       (extra_data : Option (List (String × Json)))

def Package.name : Package → String
  | .mk n _ _ _ _ _ _ _ _ => n

def Package.depends : Package → Option (List Package)
  | .mk _ d _ _ _ _ _ _ _ => d

def Package.source_type : Package → Option String
  | .mk _ _ v _ _ _ _ _ _ => v

def Package.source_uri : Package → Option String
  | .mk _ _ _ v _ _ _ _ _ => v

def Package.source_git_ref : Package → Option String
  | .mk _ _ _ _ v _ _ _ _ => v

def Package.source_path_offset : Package → Option String
  | .mk _ _ _ _ _ v _ _ _ => v

def Package.registries : Package → Option (List Package)
  | .mk _ _ _ _ _ _ r _ _ => r

def Package.package_format : Package → Option String
  | .mk _ _ _ _ _ _ _ f _ => f

def Package.extra_data : Package → Option (List (String × Json))
  | .mk _ _ _ _ _ _ _ _ e => e

/-- Package.include_data (lines 117-131): fill each unset scalar field of
self from other; if other.extra_data is truthy (non-None and nonempty),
replace extra_data by the merge in which self's keys win. -/
def Package.include_data (self other : Package) : Package :=
  Package.mk self.name
    (match self.depends with | none => other.depends | some d => some d)
    (match self.source_type with | none => other.source_type | some v => some v)
    (match self.source_uri with | none => other.source_uri | some v => some v)
    (match self.source_git_ref with | none => other.source_git_ref | some v => some v)
    (match self.source_path_offset with | none => other.source_path_offset | some v => some v)
    self.registries
    (match self.package_format with | none => other.package_format | some v => some v)
    (match other.extra_data with
     | none => self.extra_data
     | some oe =>
        if oe.isEmpty then self.extra_data
        else some (pyDictUpdate oe (self.extra_data.getD [])))

/-- Lookup through an optional dict (None has no keys). -/
def pyLookupOpt (d : Option (List (String × Json))) (k : String) : Option Json :=
  match d with
  | none => none
  | some l => pyLookup l k

lemma pyLookup_append (a b : List (String × Json)) (k : String) :
    pyLookup (a ++ b) k = Option.orElse (pyLookup a k) (fun _ => pyLookup b k) := by
  induction a with
  | nil => simp [pyLookup, Option.orElse]
  | cons kv rest ih =>
    by_cases h : kv.1 = k
    · simp [pyLookup, h, Option.orElse]
    · simp [pyLookup, h, ih]

lemma pyLookup_map_val (a : List (String × Json)) (g : String → Json → Json) (k : String) :
    pyLookup (a.map (fun kv => (kv.1, g kv.1 kv.2))) k = (pyLookup a k).map (g k) := by
  induction a with
  | nil => simp [pyLookup]
  | cons kv rest ih =>
    by_cases h : kv.1 = k
    · subst h; simp [pyLookup]
    · simp [pyLookup, h, ih]

lemma pyLookup_filter_key (a b : List (String × Json)) (k : String) :
    pyLookup (b.filter (fun kv2 => (pyLookup a kv2.1).isNone)) k
      = if (pyLookup a k).isNone then pyLookup b k else none := by
  induction b with
  | nil => simp [pyLookup]
  | cons kv rest ih =>
    by_cases h : kv.1 = k
    · subst h
      by_cases ha : (pyLookup a kv.1).isNone
      · simp [List.filter, pyLookup, ha]
      · simp [List.filter, pyLookup, ha, ih]
    · by_cases hf : (pyLookup a kv.1).isNone
      · simp [List.filter, pyLookup, h, hf, ih]
      · simp [List.filter, pyLookup, h, hf, ih]

lemma pyLookup_pyDictUpdate (a b : List (String × Json)) (k : String) :
    pyLookup (pyDictUpdate a b) k
      = Option.orElse (pyLookup b k) (fun _ => pyLookup a k) := by
  unfold pyDictUpdate
  rw [pyLookup_append, pyLookup_map_val a (fun kk v => (pyLookup b kk).getD v) k,
    pyLookup_filter_key]
  cases ha : pyLookup a k <;> cases hb : pyLookup b k <;>
    simp [Option.orElse, ha, hb]

/-! ## Claim C6: include_data merge semantics -/

lemma extraMerge_lookup (e e' : Option (List (String × Json))) (k : String) :
    pyLookupOpt (match e' with
      | none => e
      | some oe => if oe.isEmpty then e else some (pyDictUpdate oe (e.getD []))) k
      = Option.orElse (pyLookupOpt e k) (fun _ => pyLookupOpt e' k) := by
  cases e' with
  | none =>
    show pyLookupOpt e k = _
    cases h : pyLookupOpt e k <;> simp [pyLookupOpt, Option.orElse, h]
  | some oe =>
    show pyLookupOpt (if oe.isEmpty = true then e else some (pyDictUpdate oe (e.getD []))) k = _
    by_cases hoe : oe.isEmpty
    · have h0 : oe = [] := List.isEmpty_iff.mp hoe
      subst h0
      show pyLookupOpt e k = _
      cases h : pyLookupOpt e k <;>
        simp [pyLookupOpt, pyLookup, Option.orElse, h]
    · rw [if_neg hoe]
      show pyLookup (pyDictUpdate oe (e.getD [])) k = _
      rw [pyLookup_pyDictUpdate]
      cases e with
      | none =>
        cases hb : pyLookup oe k <;>
          simp [pyLookupOpt, pyLookup, Option.orElse, Option.getD, hb]
      | some se =>
        cases hs : pyLookup se k <;> cases hb : pyLookup oe k <;>
          simp [pyLookupOpt, Option.orElse, Option.getD, hs, hb]

/-- Claim C6: Package.include_data(other) fills each unset scalar field
(source_type, source_uri, source_git_ref, source_path_offset,
package_format, and depends when None) from other, never overwrites a set
field, leaves name and registries untouched, and merges extra_data with
self's keys taking precedence (stated as: every key resolves first in
self's extra_data, then in other's). -/
theorem include_data_fills_unset_only (p o : Package) :
    ((p.include_data o).name = p.name)
  ∧ ((p.include_data o).registries = p.registries)
  ∧ (p.depends = none → (p.include_data o).depends = o.depends)
  ∧ (∀ v, p.depends = some v → (p.include_data o).depends = some v)
  ∧ (p.source_type = none → (p.include_data o).source_type = o.source_type)
  ∧ (∀ v, p.source_type = some v → (p.include_data o).source_type = some v)
  ∧ (p.source_uri = none → (p.include_data o).source_uri = o.source_uri)
  ∧ (∀ v, p.source_uri = some v → (p.include_data o).source_uri = some v)
  ∧ (p.source_git_ref = none → (p.include_data o).source_git_ref = o.source_git_ref)
  ∧ (∀ v, p.source_git_ref = some v → (p.include_data o).source_git_ref = some v)
  ∧ (p.source_path_offset = none → (p.include_data o).source_path_offset = o.source_path_offset)
  ∧ (∀ v, p.source_path_offset = some v → (p.include_data o).source_path_offset = some v)
  ∧ (p.package_format = none → (p.include_data o).package_format = o.package_format)
  ∧ (∀ v, p.package_format = some v → (p.include_data o).package_format = some v)
  ∧ (∀ k, pyLookupOpt (p.include_data o).extra_data k
        = Option.orElse (pyLookupOpt p.extra_data k) (fun _ => pyLookupOpt o.extra_data k)) := by
  obtain ⟨n, d, st, su, sg, sp, r, pf, e⟩ := p
  obtain ⟨n', d', st', su', sg', sp', r', pf', e'⟩ := o
  refine ⟨rfl, rfl, ?_, ?_, ?_, ?_, ?_, ?_, ?_, ?_, ?_, ?_, ?_, ?_, ?_⟩
  · intro h
    simp only [Package.depends] at h
    simp [Package.include_data, Package.depends, h]
  · intro v h
    simp only [Package.depends] at h
    simp [Package.include_data, Package.depends, h]
  · intro h
    simp only [Package.source_type] at h
    simp [Package.include_data, Package.source_type, h]
  · intro v h
    simp only [Package.source_type] at h
    simp [Package.include_data, Package.source_type, h]
  · intro h
    simp only [Package.source_uri] at h
    simp [Package.include_data, Package.source_uri, h]
  · intro v h
    simp only [Package.source_uri] at h
    simp [Package.include_data, Package.source_uri, h]
  · intro h
    simp only [Package.source_git_ref] at h
    simp [Package.include_data, Package.source_git_ref, h]
  · intro v h
    simp only [Package.source_git_ref] at h
    simp [Package.include_data, Package.source_git_ref, h]
  · intro h
    simp only [Package.source_path_offset] at h
    simp [Package.include_data, Package.source_path_offset, h]
  · intro v h
    simp only [Package.source_path_offset] at h
    simp [Package.include_data, Package.source_path_offset, h]
  · intro h
    simp only [Package.package_format] at h
    simp [Package.include_data, Package.package_format, h]
  · intro v h
    simp only [Package.package_format] at h
    simp [Package.include_data, Package.package_format, h]
  · intro k
    exact extraMerge_lookup e e' k

/-- Witness for include_data_fills_unset_only: a package with unset
source_uri gains other's, while a set source_type is kept. -/
theorem include_data_fills_unset_only_witness :
    (Package.include_data
        (Package.mk "a" none (some "git") none none none none none none)
        (Package.mk "b" none (some "tar") (some "u") none none none none none)).source_type
      = some "git"
  ∧ (Package.include_data
        (Package.mk "a" none (some "git") none none none none none none)
        (Package.mk "b" none (some "tar") (some "u") none none none none none)).source_uri
      = some "u" :=
  ⟨(include_data_fills_unset_only _ _).2.2.2.2.2.1 "git" rfl,
   (include_data_fills_unset_only _ _).2.2.2.2.2.2.1 rfl⟩

/-! ## load_package_from_json (lines 617-641), _listify (lines 184-187) -/

/-- Sequence a list of optional values (a failing element aborts, as a
Python assert inside the loop would). -/
def seqOption {α : Type} : List (Option α) → Option (List α)
  | [] => some []
  | none :: _ => none
  | some x :: rest => (seqOption rest).map (fun r => x :: r)

/-- _listify: None becomes the empty list (a JSON null value reaches
Python as None too), a list stays, anything else is wrapped. -/
def pyListify : Option Json → List Json
  | none => []
  | some .null => []
  | some (.arr l) => l
  | some j => [j]

/-- Read an optional string-typed manifest field: an absent key or a null
value is None; a string is kept; other JSON shapes are outside the
embedding (the Python code would store a non-string in a str-typed field). -/
def asOptStr : Option Json → Option (Option String)
  | none => some none
  | some .null => some none
  | some (.str s) => some (some s)
  | some _ => none

/-- The top-level keys consumed by load_package_from_json; everything else
lands in extra_data (lines 633-636). -/
def pkgSpecialKeys : List String :=
  ["name", "source_type", "source_uri", "git_ref", "path_offset", "depends",
   "registry", "package_format"]

/-- load_package_from_json: a bare string is promoted to a name-only record;
without allow_no_name a missing name is an assertion failure; depends is
Some exactly when the key is present; registry entries are parsed with
allow_no_name; an empty registry list collapses to None (the `or None` on
line 631); unconsumed keys form extra_data.  The fuel argument bounds the
recursion depth through nested depends/registry objects (any fuel at least
the nesting depth gives the Python result). -/
def load_package_from_json : Nat → Json → Bool → Option Package
  | 0, _, _ => none
  | fuel + 1, json_data, allow_no_name => do
    let jd : List (String × Json) ←
      match json_data with
      | .str s => some [("name", Json.str s)]
      | .obj fields => some fields
      | _ => none
    if allow_no_name || (pyLookup jd "name").isSome then
      let name : String ←
        match pyLookup jd "name" with
        | none => some "NO_NAME_PACKAGE"
        | some .null => some "NO_NAME_PACKAGE"
        | some (.str s) => some (if s = "" then "NO_NAME_PACKAGE" else s)
        | some _ => none
      let source_type ← asOptStr (pyLookup jd "source_type")
      let source_uri ← asOptStr (pyLookup jd "source_uri")
      let source_git_ref ← asOptStr (pyLookup jd "git_ref")
      let source_path_offset ← asOptStr (pyLookup jd "path_offset")
      let package_format ← asOptStr (pyLookup jd "package_format")
      let depPkgs ← seqOption ((pyListify (pyLookup jd "depends")).map
        (fun dep => load_package_from_json fuel dep false))
      let regPkgs ← seqOption ((pyListify (pyLookup jd "registry")).map
        (fun dep => load_package_from_json fuel dep true))
      let extra := jd.filter (fun kv => !(pkgSpecialKeys.contains kv.1))
      some (Package.mk name
        (if (pyLookup jd "depends").isSome then some depPkgs else none)
        source_type source_uri source_git_ref source_path_offset
        (if regPkgs.isEmpty then none else some regPkgs)
        package_format
        (if extra.isEmpty then none else some extra))
    else none

/-! ## Claim C7: the nupm dependencies field (lines 563-579) -/

/-- The dependency-parsing part of Loader._load_nupm: with no
"dependencies" key nothing is looked up; line 564 asserts the value is a
list, so a non-list value (in particular a name-to-version mapping) aborts
before the isinstance dispatch that has a (dead) dict branch; list
elements split on the last "/" into (name, version); entries named
"nushell" are skipped by the lookup loop.  The result is the list of
(name, version) pairs handed to the registries and enqueued; non-string
list elements are outside the embedding (Python would raise on rsplit). -/
def loadNupmDeps (nupm_nuon : List (String × Json)) :
    Option (List (String × Option String)) :=
  match pyLookup nupm_nuon "dependencies" with
  | none => some []
  | some deps =>
    match deps with
    | .arr l => do
        let parsed ← seqOption (l.map (fun dep =>
          match dep with
          | .str s =>
              if pyInStr "/" s then
                match rsplitOnceChar '/' s.data with
                | some p => some (String.mk p.1, some (String.mk p.2))
                | none => none
              else some (s, none)
          | _ => none))
        some (parsed.filter (fun p => p.1 != "nushell"))
    | _ => none

/-- Claim C7: the nupm interpreter is claimed to accept a name-to-version
mapping for "dependencies"; the code instead asserts the value is a list
(line 564), so the mapping shape aborts the build — the dict branch on
line 571 is unreachable.  At the failing input the embedding returns the
abort value none, while the same dependencies as the documented list shape
are parsed and filtered as described. -/
theorem nupm_deps_map_aborts :
    loadNupmDeps [("type", Json.str "module"), ("name", Json.str "p"),
        ("dependencies", Json.obj [("foo", Json.str "0.1")])] = none
  ∧ loadNupmDeps [("type", Json.str "module"), ("name", Json.str "p"),
        ("dependencies", Json.arr [Json.str "foo/0.1", Json.str "nushell"])]
      = some [("foo", some "0.1")] := by
  exact ⟨rfl, rfl⟩

/-! ## Claim C8: version-alias resolution in NumngPackageRegistry.get_by_name
(lines 157-159) -/

/-- The alias-following while-loop of NumngPackageRegistry.get_by_name:
while the looked-up entry is a string, it must be a key of the
version_dict (assert, modelled as the error result) and is replaced by
that key's value.  The loop carries no visited set, so the fuel argument
instruments the number of iterations: none means the loop is still
running after the given number of steps. -/
def followAlias (version_dict : List (String × Json)) : Nat → Json → Option (Except Unit Json)
  | fuel, v =>
    match v with
    | .str s =>
      (match fuel with
       | 0 => none
       | fuel + 1 =>
         match pyLookup version_dict s with
         | some v2 => followAlias version_dict fuel v2
         | none => some (.error ()))
    | .null => some (.ok .null)
    | .bool b => some (.ok (.bool b))
    | .num n => some (.ok (.num n))
    | .arr l => some (.ok (.arr l))
    | .obj fields => some (.ok (.obj fields))

/-- The alias loop never finishes from this start value, whatever the
iteration bound: the real while-loop runs forever. -/
def aliasDiverges (version_dict : List (String × Json)) (v : Json) : Prop :=
  ∀ fuel, followAlias version_dict fuel v = none

lemma alias_cycle_aux (fuel : Nat) :
    followAlias [("a", Json.str "b"), ("b", Json.str "a")] fuel (Json.str "a") = none
  ∧ followAlias [("a", Json.str "b"), ("b", Json.str "a")] fuel (Json.str "b") = none := by
  induction fuel with
  | zero => exact ⟨rfl, rfl⟩
  | succ f ih => exact ⟨ih.2, ih.1⟩

/-- Claim C8 (counterexample): on the alias cycle a -> b -> a the
latest-version lookup selects the alias string "a", and the alias loop
then diverges: there is no visited set and no depth bound, so get_by_name
neither returns nor fails. -/
theorem alias_cycle_diverges_cex :
    (SemVer.ofString "latest").latest_matching_dict_entry
        [("a", Json.str "b"), ("b", Json.str "a")] = some (Json.str "a")
  ∧ aliasDiverges [("a", Json.str "b"), ("b", Json.str "a")] (Json.str "a") :=
  ⟨rfl, fun fuel => (alias_cycle_aux fuel).1⟩

/-- Claim C8 (amended): the alias loop has no cycle protection.  What the
code does guarantee: whenever the loop terminates with a value, that value
is not a string (the loop condition), and a run that finishes within some
iteration bound finishes identically under every larger bound (the loop is
deterministic); on a cyclic alias file it never terminates (see the
counterexample). -/
theorem followAlias_no_cycle_guard :
    (∀ d fuel v r, followAlias d fuel v = some (Except.ok r) → r.isStr = false)
  ∧ (∀ d f1 f2 v r, f1 ≤ f2 → followAlias d f1 v = some r →
       followAlias d f2 v = some r) := by
  constructor
  · intro d fuel
    induction fuel with
    | zero =>
      intro v r h
      cases v <;> simp [followAlias] at h <;> subst h <;> rfl
    | succ f ih =>
      intro v r h
      cases v with
      | str s =>
        simp only [followAlias] at h
        cases hl : pyLookup d s with
        | some v2 => rw [hl] at h; exact ih v2 r h
        | none => rw [hl] at h; simp at h
      | null => simp [followAlias] at h; subst h; rfl
      | bool b => simp [followAlias] at h; subst h; rfl
      | num n => simp [followAlias] at h; subst h; rfl
      | arr l => simp [followAlias] at h; subst h; rfl
      | obj fs => simp [followAlias] at h; subst h; rfl
  · intro d f1
    induction f1 with
    | zero =>
      intro f2 v r hle h
      cases v with
      | str s => simp [followAlias] at h
      | null => simpa only [followAlias] using h
      | bool b => simpa only [followAlias] using h
      | num n => simpa only [followAlias] using h
      | arr l => simpa only [followAlias] using h
      | obj fs => simpa only [followAlias] using h
    | succ f ih =>
      intro f2 v r hle h
      cases v with
      | str s =>
        obtain ⟨f2', rfl⟩ : ∃ f2', f2 = f2' + 1 := ⟨f2 - 1, by omega⟩
        simp only [followAlias] at h ⊢
        cases hl : pyLookup d s with
        | some v2 => rw [hl] at h; exact ih f2' v2 r (by omega) h
        | none => rw [hl] at h; exact h
      | null => simpa only [followAlias] using h
      | bool b => simpa only [followAlias] using h
      | num n => simpa only [followAlias] using h
      | arr l => simpa only [followAlias] using h
      | obj fs => simpa only [followAlias] using h

/-- Witness for followAlias_no_cycle_guard: a terminated run yields a
non-string value. -/
theorem followAlias_no_cycle_guard_witness :
    followAlias [] 0 Json.null = some (Except.ok Json.null)
  ∧ Json.isStr Json.null = false :=
  ⟨rfl, followAlias_no_cycle_guard.1 [] 0 Json.null Json.null rfl⟩

/-! ## sort_loader_script_snippets (lines 209-237)

The Python function deep-copies the input, prunes each snippet's depends
to names present in the input, and then repeatedly iterates over the todo
list emitting snippets with empty depends.  The iteration mutates the list
it is iterating over: CPython's list iterator keeps a cursor, so when the
current element is removed the element that slides into its slot is
skipped in that pass (it is picked up in a later pass).  passStep
reproduces that cursor behaviour exactly; its fuel only bounds the number
of cursor steps and the top-level entry point supplies enough for the
bound ever to matter only after the loop would have ended. -/

/-- The LoaderScriptSnippet dataclass (lines 209-213).  The derived
equality matches the dataclass field-wise __eq__ used by list.remove. -/
structure LoaderScriptSnippet where
  name : String
  depends : List String
  snippet : String
deriving DecidableEq, Repr

/-- The depends-pruning of one snippet (lines 219-223): keep only
dependency names carried by some snippet of the input list. -/
def pruneOne (todo : List LoaderScriptSnippet) (s : LoaderScriptSnippet) :
    LoaderScriptSnippet :=
  { s with depends := s.depends.filter (fun dep => todo.any (fun i => i.name == dep)) }

/-- The pruning pass over the whole list (the first for-loop; it only
rewrites depends fields, so it is a plain map reading the unchanged
names). -/
def pruneDepends (todo : List LoaderScriptSnippet) : List LoaderScriptSnippet :=
  todo.map (pruneOne todo)

/-- The dependency-removal sweep of lines 232-234 (erase the first
occurrence of the emitted name from each remaining depends list; guarded
by membership in Python, which List.erase subsumes). -/
def depEraseAll (nm : String) (l : List LoaderScriptSnippet) :
    List LoaderScriptSnippet :=
  l.map (fun i => { i with depends := i.depends.erase nm })

/-- One sweep of the inner for-loop (lines 226-234) starting with the
cursor at idx: if the current snippet's depends is empty it is emitted,
list.remove drops the first structurally equal element, and when no
same-named snippet remains the emitted name is erased (first occurrence)
from every remaining depends list; the cursor then advances against the
mutated list, which is exactly the CPython skip.  Each cursor step
consumes one fuel unit; with fuel at least todo.length + 1 the sweep runs
to completion. -/
def passStep (fuel : Nat) (todo : List LoaderScriptSnippet) (idx : Nat)
    (result : List String) : List String × List LoaderScriptSnippet :=
  match fuel with
  | 0 => (result, todo)
  | fuel + 1 =>
    if h : idx < todo.length then
      let s := todo.get ⟨idx, h⟩
      if s.depends = [] then
        let todo1 := todo.erase s
        let todo2 :=
          if todo1.any (fun i => i.name == s.name) then todo1
          else depEraseAll s.name todo1
        passStep fuel todo2 (idx + 1) (result ++ [s.snippet])
      else
        passStep fuel todo (idx + 1) result
    else (result, todo)

/-- The outer while-loop (lines 225-236): run sweeps until todo empties;
a sweep that removes nothing triggers the circular-dependency assert
(modelled as none).  Each iteration strictly shrinks todo, so fuel
todo.length + 1 always reaches the answer. -/
def sortLoop (fuel : Nat) (todo : List LoaderScriptSnippet)
    (result : List String) : Option (List String) :=
  match fuel with
  | 0 => none
  | fuel + 1 =>
    if todo = [] then some result
    else
      if (passStep (todo.length + 1) todo 0 result).2.length = todo.length then none
      else sortLoop fuel (passStep (todo.length + 1) todo 0 result).2
        (passStep (todo.length + 1) todo 0 result).1

/-- sort_loader_script_snippets: prune, then loop.  some is the returned
list of snippet texts, none the circular-dependency assertion failure. -/
def sort_loader_script_snippets (snippets : List LoaderScriptSnippet) :
    Option (List String) :=
  sortLoop ((pruneDepends snippets).length + 1) (pruneDepends snippets) []

/-! ## Invariants of the snippet sort -/

/-- The (name, snippet-text) key of a snippet; the sort only ever mutates
depends fields, so keys identify snippets across the run. -/
def keyOf (s : LoaderScriptSnippet) : String × String := (s.name, s.snippet)

lemma map_keyOf_depEraseAll (nm : String) (l : List LoaderScriptSnippet) :
    (depEraseAll nm l).map keyOf = l.map keyOf := by
  induction l with
  | nil => rfl
  | cons x xs ih => simp [depEraseAll, keyOf, ih]

lemma map_snd_keyOf (l : List LoaderScriptSnippet) :
    (l.map keyOf).map Prod.snd = l.map (fun s => s.snippet) := by
  induction l with
  | nil => rfl
  | cons x xs ih => simp [keyOf, ih]

/-- The state invariant of the emission loop, relative to the pruned input
p0: the emitted texts are the texts of some list done of already-emitted
snippets; done and the current todo together carry exactly the keys of p0;
for every pending snippet, each of its original (pruned) dependency names
is either still recorded in its depends list or belongs to a package all of
whose snippets are already emitted; and every emitted snippet's original
dependencies were emitted at strictly earlier positions. -/
def SortInv (p0 : List LoaderScriptSnippet) (result : List String)
    (todo : List LoaderScriptSnippet) : Prop :=
  ∃ done : List LoaderScriptSnippet,
    result = done.map (fun s => s.snippet)
    ∧ ((done ++ todo).map keyOf).Perm (p0.map keyOf)
    ∧ (∀ t ∈ todo, ∀ s0 ∈ p0, s0.snippet = t.snippet →
        ∀ d ∈ s0.depends, d ∈ t.depends ∨ (∀ u ∈ p0, u.name = d → u.snippet ∈ result))
    ∧ (∀ s0 ∈ p0, s0.snippet ∈ result →
        ∀ d ∈ s0.depends, ∀ u ∈ p0, u.name = d →
          u.snippet ∈ result ∧ result.indexOf u.snippet < result.indexOf s0.snippet)

lemma sortInv_init (p0 : List LoaderScriptSnippet)
    (hnd : (p0.map (fun s => s.snippet)).Nodup) : SortInv p0 [] p0 := by
  refine ⟨[], rfl, by simp, ?_, by simp⟩
  intro t ht s0 hs0 htxt d hd
  have : s0 = t := List.inj_on_of_nodup_map hnd hs0 ht htxt
  subst this
  exact Or.inl hd

/-- The G-clause (ordering of already-emitted snippets) survives emitting
one more snippet s whose pruned dependencies have all been emitted. -/
lemma sortInv_emitG (p0 : List LoaderScriptSnippet)
    (todo : List LoaderScriptSnippet) (result : List String)
    (s : LoaderScriptSnippet)
    (hmem : s ∈ todo) (hdep : s.depends = [])
    (hsnot : s.snippet ∉ result)
    (hB : ∀ t ∈ todo, ∀ s0 ∈ p0, s0.snippet = t.snippet →
        ∀ d ∈ s0.depends, d ∈ t.depends ∨ (∀ u ∈ p0, u.name = d → u.snippet ∈ result))
    (hG : ∀ s0 ∈ p0, s0.snippet ∈ result →
        ∀ d ∈ s0.depends, ∀ u ∈ p0, u.name = d →
          u.snippet ∈ result ∧ result.indexOf u.snippet < result.indexOf s0.snippet) :
    ∀ s0 ∈ p0, s0.snippet ∈ result ++ [s.snippet] →
        ∀ d ∈ s0.depends, ∀ u ∈ p0, u.name = d →
          u.snippet ∈ result ++ [s.snippet]
          ∧ (result ++ [s.snippet]).indexOf u.snippet
              < (result ++ [s.snippet]).indexOf s0.snippet := by
  intro s0 hs0 hmem0 d hd u hu hun
  rcases List.mem_append.mp hmem0 with hold | hnew
  · obtain ⟨hum, hidx⟩ := hG s0 hs0 hold d hd u hu hun
    refine ⟨List.mem_append_left _ hum, ?_⟩
    rw [List.indexOf_append_of_mem hum, List.indexOf_append_of_mem hold]
    exact hidx
  · have heq : s0.snippet = s.snippet := by simpa using hnew
    rcases hB s hmem s0 hs0 heq d hd with hL | hR
    · rw [hdep] at hL
      cases hL
    · have hum := hR u hu hun
      refine ⟨List.mem_append_left _ hum, ?_⟩
      rw [List.indexOf_append_of_mem hum, heq,
        List.indexOf_append_of_not_mem hsnot, List.indexOf_cons_self]
      have := List.indexOf_lt_length.mpr hum
      omega

/-- One emission step preserves the invariant.  The emitted snippet is any
member of todo with empty depends (passStep always emits todo.get idx, and
list.remove erases the first structurally equal element, which is an equal
value, so erasing s itself is exact). -/
lemma sortInv_step (p0 : List LoaderScriptSnippet)
    (hnd : (p0.map (fun s => s.snippet)).Nodup)
    (todo : List LoaderScriptSnippet) (result : List String)
    (s : LoaderScriptSnippet) (hmem : s ∈ todo) (hdep : s.depends = [])
    (hinv : SortInv p0 result todo) :
    SortInv p0 (result ++ [s.snippet])
      (if (todo.erase s).any (fun i => i.name == s.name) then todo.erase s
       else depEraseAll s.name (todo.erase s)) := by
  obtain ⟨done, hres, hperm, hB, hG⟩ := hinv
  have hpermtodo : todo.Perm (s :: todo.erase s) := List.perm_cons_erase hmem
  have hkeys1 : (((done ++ [s]) ++ todo.erase s).map keyOf).Perm (p0.map keyOf) := by
    have h1 : ((done ++ [s]) ++ todo.erase s).map keyOf
        = (done ++ (s :: todo.erase s)).map keyOf := by simp
    rw [h1]
    exact ((List.Perm.append_left done hpermtodo.symm).map keyOf).trans hperm
  have htextnodup : ((done ++ todo).map (fun x => x.snippet)).Nodup := by
    have h1 := (hperm.map Prod.snd)
    rw [map_snd_keyOf, map_snd_keyOf] at h1
    exact h1.nodup_iff.mpr hnd
  have hsnot : s.snippet ∉ result := by
    rw [List.map_append] at htextnodup
    have hd := (List.nodup_append.mp htextnodup).2.2
    rw [hres]
    intro hcon
    exact hd hcon (List.mem_map_of_mem _ hmem)
  by_cases hany : (todo.erase s).any (fun i => i.name == s.name)
  · rw [if_pos hany]
    refine ⟨done ++ [s], by simp [hres], hkeys1, ?_, ?_⟩
    · intro t ht s0 hs0 htxt d hd
      rcases hB t (List.mem_of_mem_erase ht) s0 hs0 htxt d hd with hL | hR
      · exact Or.inl hL
      · exact Or.inr (fun u hu hun => List.mem_append_left _ (hR u hu hun))
    · exact sortInv_emitG p0 todo result s hmem hdep hsnot hB hG
  · rw [if_neg hany]
    have hkeys2 : (((done ++ [s]) ++ depEraseAll s.name (todo.erase s)).map keyOf).Perm
        (p0.map keyOf) := by
      rw [List.map_append, map_keyOf_depEraseAll, ← List.map_append]
      exact hkeys1
    simp only [List.any_eq_true, beq_iff_eq, not_exists, not_and] at hany
    refine ⟨done ++ [s], by simp [hres], hkeys2, ?_, ?_⟩
    · intro t2 ht2 s0 hs0 htxt d hd
      simp only [depEraseAll] at ht2
      rcases List.mem_map.mp ht2 with ⟨i, hi, rfl⟩
      have htxt' : s0.snippet = i.snippet := htxt
      rcases hB i (List.mem_of_mem_erase hi) s0 hs0 htxt' d hd with hL | hR
      · by_cases hdn : d = s.name
        · subst hdn
          refine Or.inr ?_
          intro u hu hun
          have hukey : keyOf u
              ∈ ((done ++ [s]) ++ depEraseAll s.name (todo.erase s)).map keyOf :=
            hkeys2.mem_iff.mpr (List.mem_map_of_mem keyOf hu)
          rw [List.map_append] at hukey
          rcases List.mem_append.mp hukey with hfront | hback
          · have h2 : u.snippet ∈ ((done ++ [s]).map keyOf).map Prod.snd :=
              List.mem_map_of_mem Prod.snd hfront
            rw [map_snd_keyOf, List.map_append] at h2
            rw [hres]
            simpa using h2
          · exfalso
            rw [map_keyOf_depEraseAll] at hback
            rcases List.mem_map.mp hback with ⟨t, hti, hkey⟩
            have : t.name = u.name := congrArg Prod.fst hkey
            exact hany t hti (this.trans hun)
        · exact Or.inl ((List.mem_erase_of_ne hdn).mpr hL)
      · exact Or.inr (fun u hu hun => List.mem_append_left _ (hR u hu hun))
    · exact sortInv_emitG p0 todo result s hmem hdep hsnot hB hG

lemma map_text_depEraseAll (nm : String) (l : List LoaderScriptSnippet) :
    (depEraseAll nm l).map (fun s => s.snippet) = l.map (fun s => s.snippet) := by
  induction l with
  | nil => rfl
  | cons x xs ih => simp [depEraseAll, ih]

lemma map_text_map_pruneOne (t l : List LoaderScriptSnippet) :
    (l.map (pruneOne t)).map (fun s => s.snippet) = l.map (fun s => s.snippet) := by
  induction l with
  | nil => rfl
  | cons x xs ih => simp [pruneOne, ih]

/-- Every sweep preserves the invariant, whatever the cursor position and
the fuel. -/
lemma passStep_inv (p0 : List LoaderScriptSnippet)
    (hnd : (p0.map (fun s => s.snippet)).Nodup) :
    ∀ fuel todo idx result, SortInv p0 result todo →
      SortInv p0 (passStep fuel todo idx result).1 (passStep fuel todo idx result).2 := by
  intro fuel
  induction fuel with
  | zero => intro todo idx result h; exact h
  | succ f ih =>
    intro todo idx result h
    simp only [passStep]
    by_cases hidx : idx < todo.length
    · rw [dif_pos hidx]
      by_cases hdep : (todo.get ⟨idx, hidx⟩).depends = []
      · rw [if_pos hdep]
        exact ih _ _ _
          (sortInv_step p0 hnd todo result _ (todo.get_mem _ _) hdep h)
      · rw [if_neg hdep]
        exact ih _ _ _ h
    · rw [dif_neg hidx]
      exact h

/-- The outer loop preserves the invariant down to the empty todo. -/
lemma sortLoop_inv (p0 : List LoaderScriptSnippet)
    (hnd : (p0.map (fun s => s.snippet)).Nodup) :
    ∀ fuel todo result out, SortInv p0 result todo →
      sortLoop fuel todo result = some out → SortInv p0 out [] := by
  intro fuel
  induction fuel with
  | zero => intro todo result out _ h; exact absurd h (by simp [sortLoop])
  | succ f ih =>
    intro todo result out hinv h
    simp only [sortLoop] at h
    by_cases he : todo = []
    · rw [if_pos he] at h
      subst he
      injection h with h
      subst h
      exact hinv
    · rw [if_neg he] at h
      by_cases hl : (passStep (todo.length + 1) todo 0 result).2.length = todo.length
      · rw [if_pos hl] at h
        cases h
      · rw [if_neg hl] at h
        exact ih _ _ _ (passStep_inv p0 hnd _ _ _ _ hinv) h

/-- Once todo is empty the invariant yields the ordering property over the
pruned input. -/
lemma sortInv_final (p0 : List LoaderScriptSnippet) (out : List String)
    (hinv : SortInv p0 out []) :
    ∀ s0 ∈ p0, ∀ d ∈ s0.depends, ∀ u ∈ p0, u.name = d →
      u.snippet ∈ out ∧ s0.snippet ∈ out
        ∧ out.indexOf u.snippet < out.indexOf s0.snippet := by
  obtain ⟨done, hres, hperm, hB, hG⟩ := hinv
  have hall : ∀ x ∈ p0, x.snippet ∈ out := by
    intro x hx
    have hkey : keyOf x ∈ (done ++ []).map keyOf :=
      hperm.mem_iff.mpr (List.mem_map_of_mem keyOf hx)
    have h2 : x.snippet ∈ ((done ++ []).map keyOf).map Prod.snd :=
      List.mem_map_of_mem Prod.snd hkey
    rw [map_snd_keyOf] at h2
    rw [hres]
    simpa using h2
  intro s0 hs0 d hd u hu hun
  have h1 := hall s0 hs0
  obtain ⟨hum, hidx⟩ := hG s0 hs0 h1 d hd u hu hun
  exact ⟨hum, h1, hidx⟩

/-! ## Claim C1: dependency ordering of the snippet sort -/

/-- Claim C1 (counterexample): the claimed ordering is between PACKAGES
(every snippet named in S.depends before every snippet of S's package).
Input: two snippets of package n, the first independent, the second
depending on package d.  The sort emits the independent n-snippet first,
so the d-snippet (a dependency of package n) appears AFTER a snippet of
package n, refuting the claim; snippet texts are pairwise distinct so the
output positions are unambiguous. -/
theorem sort_group_order_cex :
    sort_loader_script_snippets
        [⟨"n", [], "sA"⟩, ⟨"d", [], "sB"⟩, ⟨"n", ["d"], "sC"⟩]
      = some ["sA", "sB", "sC"]
  ∧ ¬ (["sA", "sB", "sC"].indexOf "sB" < ["sA", "sB", "sC"].indexOf "sA")
  ∧ "d" ∈ (⟨"n", ["d"], "sC"⟩ : LoaderScriptSnippet).depends
  ∧ (⟨"n", [], "sA"⟩ : LoaderScriptSnippet).name
      = (⟨"n", ["d"], "sC"⟩ : LoaderScriptSnippet).name := by
  refine ⟨by decide, by decide, by decide, by decide⟩

/-- Claim C1 (amended): per-snippet dependency ordering.  For every input
whose snippet texts are pairwise distinct (so that output positions are
well defined) on which the sort succeeds: whenever T is an input snippet
whose name appears in S.depends (names of no input snippet are pruned and
impose no constraint), T's text is emitted strictly before S's text.
Snippets merely sharing S's name need not come after T. -/
theorem sort_emits_dependencies_first
    (snips : List LoaderScriptSnippet) (out : List String)
    (hnd : (snips.map (fun s => s.snippet)).Nodup)
    (hs : sort_loader_script_snippets snips = some out)
    (S T : LoaderScriptSnippet) (hS : S ∈ snips) (hT : T ∈ snips)
    (hdep : T.name ∈ S.depends) :
    T.snippet ∈ out ∧ S.snippet ∈ out
      ∧ out.indexOf T.snippet < out.indexOf S.snippet := by
  have hnd0 : ((pruneDepends snips).map (fun s => s.snippet)).Nodup := by
    rw [pruneDepends, map_text_map_pruneOne]
    exact hnd
  have hloop : sortLoop ((pruneDepends snips).length + 1) (pruneDepends snips) []
      = some out := hs
  have hfin := sortInv_final (pruneDepends snips) out
    (sortLoop_inv (pruneDepends snips) hnd0 _ _ _ _ (sortInv_init _ hnd0) hloop)
  have hS0 : pruneOne snips S ∈ pruneDepends snips := List.mem_map_of_mem _ hS
  have hT0 : pruneOne snips T ∈ pruneDepends snips := List.mem_map_of_mem _ hT
  have hd0 : T.name ∈ (pruneOne snips S).depends := by
    simp only [pruneOne]
    refine List.mem_filter.mpr ⟨hdep, ?_⟩
    simp only [List.any_eq_true, beq_iff_eq]
    exact ⟨T, hT, rfl⟩
  exact hfin (pruneOne snips S) hS0 T.name hd0 (pruneOne snips T) hT0 rfl

/-- Witness for sort_emits_dependencies_first at a concrete two-snippet
input: sB (package d) is emitted before sC, which depends on d. -/
theorem sort_emits_dependencies_first_witness :
    sort_loader_script_snippets [⟨"d", [], "sB"⟩, ⟨"n", ["d"], "sC"⟩]
      = some ["sB", "sC"]
  ∧ ["sB", "sC"].indexOf "sB" < ["sB", "sC"].indexOf "sC" :=
  ⟨rfl,
   (sort_emits_dependencies_first
      [⟨"d", [], "sB"⟩, ⟨"n", ["d"], "sC"⟩] ["sB", "sC"]
      (by decide) rfl ⟨"n", ["d"], "sC"⟩ ⟨"d", [], "sB"⟩
      (by decide) (by decide) (by decide)).2.2⟩

/-! ## Claim C2: stability of the snippet sort -/

lemma passStep_length_le :
    ∀ fuel todo idx result, (passStep fuel todo idx result).2.length ≤ todo.length := by
  intro fuel
  induction fuel with
  | zero => intro todo idx result; exact le_refl _
  | succ f ih =>
    intro todo idx result
    simp only [passStep]
    by_cases hidx : idx < todo.length
    · rw [dif_pos hidx]
      by_cases hdep : (todo.get ⟨idx, hidx⟩).depends = []
      · rw [if_pos hdep]
        refine le_trans (ih _ _ _) ?_
        have h1 : ((todo.erase (todo.get ⟨idx, hidx⟩)).length ≤ todo.length) :=
          (List.erase_sublist _ _).length_le
        by_cases hany : (todo.erase (todo.get ⟨idx, hidx⟩)).any
            (fun i => i.name == (todo.get ⟨idx, hidx⟩).name)
        · rw [if_pos hany]
          exact h1
        · rw [if_neg hany]
          rw [depEraseAll, List.length_map]
          exact h1
      · rw [if_neg hdep]
        exact ih _ _ _
    · rw [dif_neg hidx]

lemma passStep_progress (todo : List LoaderScriptSnippet) (result : List String)
    (hne : todo ≠ []) (hall : ∀ t ∈ todo, t.depends = []) (fuel : Nat) :
    (passStep (fuel + 1) todo 0 result).2.length < todo.length := by
  have hidx : 0 < todo.length := List.length_pos.mpr hne
  simp only [passStep]
  rw [dif_pos hidx]
  have hmem : todo.get ⟨0, hidx⟩ ∈ todo := todo.get_mem _ _
  have hdep : (todo.get ⟨0, hidx⟩).depends = [] := hall _ hmem
  rw [if_pos hdep]
  have hlen1 : (todo.erase (todo.get ⟨0, hidx⟩)).length = todo.length - 1 :=
    List.length_erase_of_mem hmem
  refine lt_of_le_of_lt (passStep_length_le _ _ _ _) ?_
  by_cases hany : (todo.erase (todo.get ⟨0, hidx⟩)).any
      (fun i => i.name == (todo.get ⟨0, hidx⟩).name)
  · rw [if_pos hany, hlen1]
    omega
  · rw [if_neg hany, depEraseAll, List.length_map, hlen1]
    omega

lemma passStep_empty_preserved :
    ∀ fuel todo idx result, (∀ t ∈ todo, t.depends = []) →
      ∀ t ∈ (passStep fuel todo idx result).2, t.depends = [] := by
  intro fuel
  induction fuel with
  | zero => intro todo idx result hall; exact hall
  | succ f ih =>
    intro todo idx result hall
    simp only [passStep]
    by_cases hidx : idx < todo.length
    · rw [dif_pos hidx]
      by_cases hdep : (todo.get ⟨idx, hidx⟩).depends = []
      · rw [if_pos hdep]
        refine ih _ _ _ ?_
        have hall1 : ∀ t ∈ todo.erase (todo.get ⟨idx, hidx⟩), t.depends = [] :=
          fun t ht => hall t (List.mem_of_mem_erase ht)
        by_cases hany : (todo.erase (todo.get ⟨idx, hidx⟩)).any
            (fun i => i.name == (todo.get ⟨idx, hidx⟩).name)
        · rw [if_pos hany]
          exact hall1
        · rw [if_neg hany]
          intro t ht
          rw [depEraseAll] at ht
          rcases List.mem_map.mp ht with ⟨i, hi, rfl⟩
          simp [hall1 i hi]
      · rw [if_neg hdep]
        exact ih _ _ _ hall
    · rw [dif_neg hidx]
      exact hall

lemma passStep_textPerm :
    ∀ fuel todo idx result,
      ((passStep fuel todo idx result).1
        ++ (passStep fuel todo idx result).2.map (fun s => s.snippet)).Perm
        (result ++ todo.map (fun s => s.snippet)) := by
  intro fuel
  induction fuel with
  | zero => intro todo idx result; exact List.Perm.refl _
  | succ f ih =>
    intro todo idx result
    simp only [passStep]
    by_cases hidx : idx < todo.length
    · rw [dif_pos hidx]
      by_cases hdep : (todo.get ⟨idx, hidx⟩).depends = []
      · rw [if_pos hdep]
        have hmem : todo.get ⟨idx, hidx⟩ ∈ todo := todo.get_mem _ _
        have hcons : todo.Perm
            (todo.get ⟨idx, hidx⟩ :: todo.erase (todo.get ⟨idx, hidx⟩)) :=
          List.perm_cons_erase hmem
        have htexts : ∀ todo2 : List LoaderScriptSnippet,
            todo2.map (fun s : LoaderScriptSnippet => s.snippet)
              = (todo.erase (todo.get ⟨idx, hidx⟩)).map (fun s => s.snippet) →
            (((result ++ [(todo.get ⟨idx, hidx⟩).snippet])
              ++ todo2.map (fun s => s.snippet)).Perm
              (result ++ todo.map (fun s => s.snippet))) := by
          intro todo2 heq
          rw [heq]
          have h1 : (result ++ [(todo.get ⟨idx, hidx⟩).snippet])
              ++ (todo.erase (todo.get ⟨idx, hidx⟩)).map (fun s => s.snippet)
              = result ++ ((todo.get ⟨idx, hidx⟩).snippet
                  :: (todo.erase (todo.get ⟨idx, hidx⟩)).map (fun s => s.snippet)) := by
            simp
          rw [h1]
          refine List.Perm.append_left result ?_
          have := (hcons.map (fun s => s.snippet)).symm
          simpa using this
        by_cases hany : (todo.erase (todo.get ⟨idx, hidx⟩)).any
            (fun i => i.name == (todo.get ⟨idx, hidx⟩).name)
        · rw [if_pos hany]
          exact (ih _ _ _).trans (htexts _ rfl)
        · rw [if_neg hany]
          exact (ih _ _ _).trans (htexts _ (map_text_depEraseAll _ _))
      · rw [if_neg hdep]
        exact ih _ _ _
    · rw [dif_neg hidx]

lemma sortLoop_success :
    ∀ fuel todo result, (∀ t ∈ todo, t.depends = []) → todo.length < fuel →
      ∃ out, sortLoop fuel todo result = some out
        ∧ out.Perm (result ++ todo.map (fun s => s.snippet)) := by
  intro fuel
  induction fuel with
  | zero => intro todo result _ h; omega
  | succ f ih =>
    intro todo result hall hlen
    by_cases he : todo = []
    · subst he
      exact ⟨result, by simp [sortLoop], by simp⟩
    · obtain ⟨fl, hfl⟩ : ∃ fl, todo.length + 1 = fl + 1 := ⟨todo.length, rfl⟩
      have hprog : (passStep (todo.length + 1) todo 0 result).2.length < todo.length := by
        rw [hfl]
        exact passStep_progress todo result he hall fl
      obtain ⟨out, hout, hperm⟩ := ih (passStep (todo.length + 1) todo 0 result).2
        (passStep (todo.length + 1) todo 0 result).1
        (passStep_empty_preserved _ _ _ _ hall) (by omega)
      refine ⟨out, ?_, ?_⟩
      · simp only [sortLoop]
        rw [if_neg he, if_neg (Nat.ne_of_lt hprog)]
        exact hout
      · exact hperm.trans (passStep_textPerm _ _ _ _)

/-- Claim C2 (counterexample): three independent snippets.  CPython's
list iterator skips the element that slides into the removed slot, so the
emission order is first, third, second: the output is NOT the input order,
refuting stability. -/
theorem sort_not_stable_cex :
    sort_loader_script_snippets [⟨"a", [], "sa"⟩, ⟨"b", [], "sb"⟩, ⟨"c", [], "sc"⟩]
      = some ["sa", "sc", "sb"]
  ∧ (["sa", "sc", "sb"] : List String)
      ≠ [⟨"a", [], "sa"⟩, ⟨"b", [], "sb"⟩,
          (⟨"c", [], "sc"⟩ : LoaderScriptSnippet)].map (fun s => s.snippet) := by
  refine ⟨by decide, by decide⟩

/-- Claim C2 (amended): when every snippet's pruned depends list is empty
the sort still succeeds and emits every input snippet exactly once, i.e.
the output is a permutation of the input texts — but (by the
counterexample) not the input order: each sweep emits every other ready
snippet, starting with the first, and repeats on the remainder. -/
theorem sort_indep_perm (snips : List LoaderScriptSnippet)
    (h : ∀ s ∈ pruneDepends snips, s.depends = []) :
    ∃ out, sort_loader_script_snippets snips = some out
      ∧ out.Perm (snips.map (fun s => s.snippet)) := by
  obtain ⟨out, h1, h2⟩ := sortLoop_success ((pruneDepends snips).length + 1)
    (pruneDepends snips) [] h (by omega)
  refine ⟨out, h1, ?_⟩
  rw [List.nil_append, pruneDepends, map_text_map_pruneOne] at h2
  exact h2

/-- Witness for sort_indep_perm: a single snippet whose only dependency
name is absent from the input (so it is pruned away). -/
theorem sort_indep_perm_witness :
    ∃ out, sort_loader_script_snippets [⟨"a", ["x"], "sa"⟩] = some out
      ∧ out.Perm ([⟨"a", ["x"], "sa"⟩].map
          (fun s : LoaderScriptSnippet => s.snippet)) :=
  sort_indep_perm [⟨"a", ["x"], "sa"⟩] (by decide)

/-! ## Claim C3: destinations of planned symlinks

The plan list _nupm_home_symlink_todo receives entries from four places:
_register_nupm_module / _register_nupm_binary / _register_nupm_overlay
(lines 352-372), and the linkin handling of _load_numng (lines 471-492).
All entries are applied by symlink() at lines 328-329 of one build.
Filesystem reads and _download_package are oracles passed as functions. -/

/-- Loader._register_nupm_module (lines 352-357): the plan entries it
appends.  A None home appends nothing; an assert failure (destination not
under home/modules as a string prefix) aborts. -/
def registerNupmModule (nupm_home : Option String)
    (module_name module_source_path : String) :
    Option (List (String × String)) :=
  match nupm_home with
  | none => some []
  | some h =>
    if pyStartsWith (pyAbspath (pyJoinAll h ["modules", filesystem_safe module_name]))
        (pyJoin h "modules") then
      some [(module_source_path,
        pyAbspath (pyJoinAll h ["modules", filesystem_safe module_name]))]
    else none

/-- Loader._register_nupm_binary (lines 359-365); the chmod of the source
file is a filesystem effect outside the plan. -/
def registerNupmBinary (nupm_home : Option String)
    (binary_name binary_source_path : String) :
    Option (List (String × String)) :=
  match nupm_home with
  | none => some []
  | some h =>
    if pyStartsWith (pyAbspath (pyJoinAll h ["bin", filesystem_safe binary_name]))
        (pyJoin h "bin") then
      some [(binary_source_path,
        pyAbspath (pyJoinAll h ["bin", filesystem_safe binary_name]))]
    else none

/-- Loader._register_nupm_overlay (lines 367-372). -/
def registerNupmOverlay (nupm_home : Option String)
    (overlay_name overlay_source_path : String) :
    Option (List (String × String)) :=
  match nupm_home with
  | none => some []
  | some h =>
    if pyStartsWith (pyAbspath (pyJoinAll h ["overlays", filesystem_safe overlay_name]))
        (pyJoin h "overlays") then
      some [(overlay_source_path,
        pyAbspath (pyJoinAll h ["overlays", filesystem_safe overlay_name]))]
    else none

/-- "[repo:]dest" splitting of a linkin key (lines 474-477): split at the
first ":" when present. -/
def linkinSplit (rawPath : String) : Option String × String :=
  match splitOnceChar ':' rawPath.data with
  | some p => (some (String.mk p.1), String.mk p.2)
  | none => (none, rawPath)

/-- The linkin destination (line 478): abspath of the base path joined
with the slash-separated components of the dest part. -/
def linkinDstPath (basePath rawPath : String) : String :=
  pyAbspath (pyJoinAll basePath
    ((splitOnChar '/' (linkinSplit rawPath).2.data).map String.mk))

/-- Handling of one linkin item (lines 473-492): outer none is a Python
assert failure aborting the build; some none means the item plans nothing
(an existing symlink already pointing at the source, the `continue` on
line 490); some (some (src, dst)) is the planned symlink.  makedirs of the
parent directory and unlink of a stale symlink are filesystem effects with
no plan entry. -/
def linkinStep (fuel : Nat) (basePath : String) (download : Package → String)
    (pexists islink : String → Bool) (realpath : String → String)
    (rawPath : String) (spec : Json) : Option (Option (String × String)) :=
  if pyStartsWith (linkinDstPath basePath rawPath) basePath then
    match load_package_from_json fuel spec false with
    | none => none
    | some pkg =>
      match (match (linkinSplit rawPath).1 with
             | some repoPath =>
               if pyStartsWith (pyAbspath (pyJoin (download pkg) repoPath))
                   (download pkg) then
                 some (pyAbspath (pyJoin (download pkg) repoPath))
               else none
             | none => some (download pkg)) with
      | none => none
      | some src =>
        if pexists (linkinDstPath basePath rawPath) then
          if islink (linkinDstPath basePath rawPath) then
            (if realpath (linkinDstPath basePath rawPath) = src then some none
             else some (some (src, linkinDstPath basePath rawPath)))
          else none
        else some (some (src, linkinDstPath basePath rawPath))
  else none

/-- The loop over the linkin dict items (line 473), accumulating the plan
entries in order. -/
def loadNumngLinkinGo (fuel : Nat) (basePath : String) (download : Package → String)
    (pexists islink : String → Bool) (realpath : String → String) :
    List (String × Json) → List (String × String) → Option (List (String × String))
  | [], acc => some acc
  | (rawPath, spec) :: rest, acc =>
    match linkinStep fuel basePath download pexists islink realpath rawPath spec with
    | none => none
    | some none => loadNumngLinkinGo fuel basePath download pexists islink realpath rest acc
    | some (some e) =>
      loadNumngLinkinGo fuel basePath download pexists islink realpath rest (acc ++ [e])

/-- The linkin block of Loader._load_numng (lines 471-492), as the list of
plan entries it appends during one package load. -/
def loadNumngLinkin (fuel : Nat) (basePath : String) (items : List (String × Json))
    (download : Package → String) (pexists islink : String → Bool)
    (realpath : String → String) : Option (List (String × String)) :=
  loadNumngLinkinGo fuel basePath download pexists islink realpath items []

lemma linkinStep_dst (fuel : Nat) (basePath : String) (download : Package → String)
    (pexists islink : String → Bool) (realpath : String → String)
    (rawPath : String) (spec : Json) (e : String × String)
    (h : linkinStep fuel basePath download pexists islink realpath rawPath spec
        = some (some e)) :
    pyStartsWith e.2 basePath = true := by
  unfold linkinStep at h
  split at h
  case isTrue hc =>
    split at h
    · cases h
    · split at h
      · cases h
      · split at h
        · split at h
          · split at h
            · simp at h
            · injection h with h
              injection h with h
              subst h
              exact hc
          · cases h
        · injection h with h
          injection h with h
          subst h
          exact hc
  case isFalse hc => cases h

lemma loadNumngLinkinGo_under_base (fuel : Nat) (basePath : String)
    (download : Package → String) (pexists islink : String → Bool)
    (realpath : String → String) :
    ∀ items acc out,
      (∀ p ∈ acc, pyStartsWith p.2 basePath = true) →
      loadNumngLinkinGo fuel basePath download pexists islink realpath items acc
        = some out →
      ∀ p ∈ out, pyStartsWith p.2 basePath = true := by
  intro items
  induction items with
  | nil =>
    intro acc out hacc h
    injection h with h
    subst h
    exact hacc
  | cons it rest ih =>
    intro acc out hacc h
    rcases it with ⟨rawPath, spec⟩
    rw [loadNumngLinkinGo] at h
    cases hstep : linkinStep fuel basePath download pexists islink realpath rawPath spec with
    | none => rw [hstep] at h; cases h
    | some o =>
      rw [hstep] at h
      cases o with
      | none => exact ih acc out hacc h
      | some e =>
        refine ih _ out ?_ h
        intro p hp
        rcases List.mem_append.mp hp with hp | hp
        · exact hacc p hp
        · have hpe : p = e := List.mem_singleton.mp hp
          subst hpe
          exact linkinStep_dst fuel basePath download pexists islink realpath
            rawPath spec p hstep

/-- Claim C3 (counterexample): a linkin entry plans a symlink whose
destination lies under the DECLARING PACKAGE's base path in the git
store, not under the home directory's modules/, bin/ or overlays/
subtree (for any home directory disjoint from the store, here
/home/u/nupm_home); the plan is applied wholesale at lines 328-329. -/
theorem plan_dst_outside_home_cex :
    loadNumngLinkin 5 "/base/pkg" [("dest", Json.str "libpkg")]
        (fun _ => "/store/lib") (fun _ => false) (fun _ => false) (fun p => p)
      = some [("/store/lib", "/base/pkg/dest")]
  ∧ pyStartsWith "/base/pkg/dest" (pyJoin "/home/u/nupm_home" "modules") = false
  ∧ pyStartsWith "/base/pkg/dest" (pyJoin "/home/u/nupm_home" "bin") = false
  ∧ pyStartsWith "/base/pkg/dest" (pyJoin "/home/u/nupm_home" "overlays") = false
  ∧ pyStartsWith "/base/pkg/dest" "/home/u/nupm_home" = false := by
  refine ⟨rfl, by decide, by decide, by decide, by decide⟩

/-- Claim C3 (amended): destinations planned by the register helpers do
lie under home/modules, home/bin, home/overlays respectively (their
asserts enforce exactly that string prefix); destinations planned by the
linkin step lie under the declaring package's base path instead, so the
home-subtree invariant holds for register entries only. -/
theorem plan_dst_register_or_linkin :
    (∀ h name src out, registerNupmModule (some h) name src = some out →
       ∀ p ∈ out, pyStartsWith p.2 (pyJoin h "modules") = true)
  ∧ (∀ h name src out, registerNupmBinary (some h) name src = some out →
       ∀ p ∈ out, pyStartsWith p.2 (pyJoin h "bin") = true)
  ∧ (∀ h name src out, registerNupmOverlay (some h) name src = some out →
       ∀ p ∈ out, pyStartsWith p.2 (pyJoin h "overlays") = true)
  ∧ (∀ fuel basePath items download pexists islink realpath out,
       loadNumngLinkin fuel basePath items download pexists islink realpath
         = some out →
       ∀ p ∈ out, pyStartsWith p.2 basePath = true) := by
  refine ⟨?_, ?_, ?_, ?_⟩
  · intro h name src out hout p hp
    simp only [registerNupmModule] at hout
    split at hout
    case isTrue hc =>
      injection hout with hout
      subst hout
      have hpe := List.mem_singleton.mp hp
      subst hpe
      exact hc
    case isFalse hc => cases hout
  · intro h name src out hout p hp
    simp only [registerNupmBinary] at hout
    split at hout
    case isTrue hc =>
      injection hout with hout
      subst hout
      have hpe := List.mem_singleton.mp hp
      subst hpe
      exact hc
    case isFalse hc => cases hout
  · intro h name src out hout p hp
    simp only [registerNupmOverlay] at hout
    split at hout
    case isTrue hc =>
      injection hout with hout
      subst hout
      have hpe := List.mem_singleton.mp hp
      subst hpe
      exact hc
    case isFalse hc => cases hout
  · intro fuel basePath items download pexists islink realpath out hout p hp
    exact loadNumngLinkinGo_under_base fuel basePath download pexists islink realpath
      items [] out (by intro q hq; cases hq) hout p hp

/-- Witness for plan_dst_register_or_linkin: a concrete module
registration lands under home/modules. -/
theorem plan_dst_register_or_linkin_witness :
    registerNupmModule (some "/h") "m" "/s" = some [("/s", "/h/modules/m")]
  ∧ pyStartsWith "/h/modules/m" (pyJoin "/h" "modules") = true :=
  ⟨rfl, plan_dst_register_or_linkin.1 "/h" "m" "/s" [("/s", "/h/modules/m")] rfl
      ("/s", "/h/modules/m") (by decide)⟩

/-! ## Claim C9: get_git_ref_path (lines 644-707) -/

/-- Split a character list at the FIRST occurrence of a separator string,
mirroring Python str.split(sep, 1) for a multi-character separator. -/
def splitOnceStr (sep : List Char) : List Char → Option (List Char × List Char)
  | [] => if sep.isEmpty then some ([], []) else none
  | x :: xs =>
    if startsList sep (x :: xs) then some ([], (x :: xs).drop sep.length)
    else (splitOnceStr sep xs).map (fun p => (x :: p.1, p.2))

/-- The store base directory for a URL (lines 647-651):
basedir/store/git/<filesystem_safe segments of the URL after "://">.
None when the URL has no "://" (the assert on line 646).  The global
BASEDIRECTORY depends on the user's home directory and is passed in. -/
def gitStoreBase (basedir url : String) : Option String :=
  (splitOnceStr "://".data url.data).map (fun p =>
    pyJoinAll basedir
      (["store", "git"] ++ (splitOnChar '/' p.2).map
        (fun seg => filesystem_safe (String.mk seg))))

/-- The Python default for the ref (line 645): `ref or "main"`, so both
None and the empty string fall back to "main". -/
def gitRefOrMain (ref : Option String) : String :=
  match ref with
  | none => "main"
  | some s => if s = "" then "main" else s

/-- The path get_git_ref_path RETURNS (lines 656 and 707): the store base
joined with the RAW ref. -/
def get_git_ref_path (basedir url : String) (ref : Option String) : Option String :=
  (gitStoreBase basedir url).map (fun base => pyJoin base (gitRefOrMain ref))

/-- The ref_path at which the worktree is created during acquisition
(line 653 and the worktree-add calls): the store base joined with the
SANITIZED ref. -/
def git_ref_worktree_path (basedir url : String) (ref : Option String) : Option String :=
  (gitStoreBase basedir url).map (fun base =>
    pyJoin base (filesystem_safe (gitRefOrMain ref)))

/-- Claim C9 (code divergence): for the ref "feature/x" the worktree is
created at base/feature_x but the function returns base/feature/x — a
path never created, contradicting the claim that the returned path is the
worktree path base/<sanitized R>. -/
theorem git_ref_return_unsanitized :
    get_git_ref_path "/bd" "https://example.com/owner/repo" (some "feature/x")
      = some "/bd/store/git/example.com/owner/repo/feature/x"
  ∧ git_ref_worktree_path "/bd" "https://example.com/owner/repo" (some "feature/x")
      = some "/bd/store/git/example.com/owner/repo/feature_x"
  ∧ get_git_ref_path "/bd" "https://example.com/owner/repo" (some "feature/x")
      ≠ git_ref_worktree_path "/bd" "https://example.com/owner/repo" (some "feature/x") := by
  refine ⟨rfl, rfl, by decide⟩

/-! ## Claim C10: containment checks are plain string-prefix tests -/

/-- The path-containment ("security") check pattern used by the numng
interpreter and the registries: normalize the joined path with abspath
and test str.startswith against the bare base, with no trailing separator
(lines 478, 483, 495, 501, 509, 513, 517, 521, 528, 561 use it on
manifest paths; lines 177-178 on registry paths; lines 355-356, 362-363
and 370-371 against home subdirectories; lines 421 and 429 without the
abspath normalization). -/
def numngContainmentCheck (base rel : String) : Bool :=
  pyStartsWith (pyAbspath (pyJoin base rel)) base

/-- Claim C10: the prefix test admits sibling-directory escapes.  There
are a base and a manifest-supplied relative path whose normalized join
lies outside the base directory — in a sibling whose name extends the
base as a string — yet the check passes, so the security-error branch is
not taken. -/
theorem containment_prefix_escape :
    ∃ base rel : String,
      numngContainmentCheck base rel = true
      ∧ pyStartsWith (pyAbspath (pyJoin base rel)) (base ++ "/") = false
      ∧ pyAbspath (pyJoin base rel) ≠ base
      ∧ pyAbspath (pyJoin base rel) = base ++ "extra/f" := by
  refine ⟨"/x/pkg", "../pkgextra/f", by decide, by decide, by decide, by decide⟩
